import Mathlib

/-!
Shallow embedding of the per-site Bayesian decision core of the freebayes
variant caller (`src/freebayes.cpp`, function `main`), together with proofs
of the specified per-site properties.

The embedding follows the C++ source line by line.  `long double` values are
modelled as real numbers.  Functions that `main` calls but whose bodies live
in translation units outside `src/` (`logsumexp_probs`, `safe_exp`,
`float2phred`, `GenotypeComboResultSorter`, `GenotypeCombo::operator==`,
`GenotypeCombo::isHomozygous`, `sufficientAlternateObservations`,
`countAlleles`, and the genotype-combination search routines) are modelled
from the specification; each such definition carries a doc comment that
starts with "Modelled from the spec:".
-/

namespace Freebayes

/-! ## Data model -/

/-- A joint genotype combination at a site (`GenotypeCombo` in the source).
`assignment` is the sample-indexed list of canonical genotype keys (samples
in the canonical driver order, so the position encodes the sample);
`isHom` models the result of the source's `GenotypeCombo::isHomozygous()`
(Modelled from the spec: the method body is not under `src/`; the spec and
the comment at lines 369-372 of `freebayes.cpp` treat a combo as homozygous
when it contains a single distinct allele, and the driver only ever uses
the Boolean result, which we therefore carry as a field);
`posteriorProb` is the combo's joint log-score. -/
structure GenotypeCombo where
  assignment : List String
  isHom : Bool
  posteriorProb : ℝ

/-- State carried by the `pVar`/`pHom`/best-combo loop of
`freebayes.cpp` lines 374-398. -/
structure SiteDecisionState where
  pVar : ℝ
  pHom : ℝ
  hasHetCombo : Bool
  bestCombo : Option GenotypeCombo
  bestOverallComboIsHet : Bool

/-! ## Modelled numeric utilities (bodies not under `src/`) -/

/-- Modelled from the spec: `safe_exp` (declared in `Utility.h`, body not
under `src/`) is the underflow-guarded exponential used at lines 384-385 and
437; over exact reals the guard is the identity, so it is the exponential. -/
noncomputable def safe_exp (x : ℝ) : ℝ := Real.exp x

/-- Modelled from the spec: `logsumexp_probs` (body not under `src/`) is
"implemented with the max-shift trick": the maximum plus the log of the sum
of exponentials of the differences from the maximum. -/
noncomputable def logsumexp_probs : List ℝ → ℝ
  | [] => 0
  | x :: rest =>
    let m := rest.foldl max x
    m + Real.log (((x :: rest).map (fun y => Real.exp (y - m))).sum)

/-- Modelled from the spec: `float2phred` (body not under `src/`) converts a
probability to the Phred scale, `-10 log10 p`. -/
noncomputable def float2phred (p : ℝ) : ℝ := -10 * Real.logb 10 p

/-! ## Site decision loop (`freebayes.cpp` lines 374-398)

The loop walks the sorted, deduplicated combo list once.  For each
homozygous combo it subtracts `safe_exp(posteriorProb - posteriorNormalizer)`
from `pVar` and adds the same quantity to `pHom`; the first heterozygous
combo becomes `bestCombo`, and `bestOverallComboIsHet` is set when that
first heterozygous combo is the head of the list (`gc ==
genotypeCombos.begin()`).  After the loop, if no heterozygous combo was
seen, `bestCombo` falls back to the front of the list. -/

/-- One iteration of the loop body at lines 382-393. `isFirst` models the
iterator comparison `gc == genotypeCombos.begin()`. -/
noncomputable def decisionStep (normalizer : ℝ) (isFirst : Bool)
    (st : SiteDecisionState) (gc : GenotypeCombo) : SiteDecisionState :=
  if gc.isHom then
    { st with
      pVar := st.pVar - safe_exp (gc.posteriorProb - normalizer),
      pHom := st.pHom + safe_exp (gc.posteriorProb - normalizer) }
  else if st.hasHetCombo = false then
    { st with
      bestCombo := some gc,
      hasHetCombo := true,
      bestOverallComboIsHet := if isFirst then true else st.bestOverallComboIsHet }
  else
    st

/-- The loop at lines 382-393, folded over the combo list. -/
noncomputable def decisionLoop (normalizer : ℝ) :
    List GenotypeCombo → Bool → SiteDecisionState → SiteDecisionState
  | [], _, st => st
  | gc :: rest, isFirst, st =>
    decisionLoop normalizer rest false (decisionStep normalizer isFirst st gc)

/-- Lines 352-356: `posteriorNormalizer = logsumexp_probs(comboProbs)` where
`comboProbs` collects every combo's `posteriorProb`. -/
noncomputable def posteriorNormalizer (combos : List GenotypeCombo) : ℝ :=
  logsumexp_probs (combos.map GenotypeCombo.posteriorProb)

/-- Lines 374-379: `pVar = 1.0`, `pHom = 0.0`, `hasHetCombo = false`,
`bestOverallComboIsHet = false`, `bestCombo = NULL`. -/
noncomputable def initDecisionState : SiteDecisionState :=
  { pVar := 1, pHom := 0, hasHetCombo := false,
    bestCombo := none, bestOverallComboIsHet := false }

/-- Lines 352-398: compute the posterior normalizer from all combo
posterior scores, run the loop from `pVar = 1.0`, `pHom = 0.0`, and fall
back to the front combo when no heterozygous combo exists (lines 396-398). -/
noncomputable def siteDecision (combos : List GenotypeCombo) : SiteDecisionState :=
  let st := decisionLoop (posteriorNormalizer combos) combos true initDecisionState
  if st.hasHetCombo then st else { st with bestCombo := combos.head? }

/-! ## Emission decision (`freebayes.cpp` lines 447, 591) -/

/-- What the driver does with a processed site: emit a variant record
(line 447 onwards), write the site to the optional failed-site report
(lines 591-605), or produce nothing. -/
inductive SiteOutput where
  | emitted
  | failedRecord
  | noOutput
deriving DecidableEq

/-- Lines 447 and 591: `if ((1 - pHom) >= parameters.PVL)` a record is
emitted; `else if (!parameters.failedFile.empty())` the site goes to the
failed-site report; otherwise nothing is written. -/
noncomputable def siteOutput (pHom PVL : ℝ) (hasFailedFile : Bool) : SiteOutput :=
  if 1 - pHom ≥ PVL then .emitted
  else if hasFailedFile then .failedRecord
  else .noOutput

/-! ## Sample data likelihoods and the variant/invariant partition
(`freebayes.cpp` lines 248-271) -/

/-- One `SampleDataLikelihood` entry: a sample's name and the log data
likelihood `prob` of one of its genotypes.  A sample's entries are kept
sorted descending by `prob` (`sortSampleDataLikelihoods`, line 254), so the
first two entries are the top two genotypes. -/
structure SampleDataLikelihood where
  name : String
  prob : ℝ

/-- Lines 258-260: the condition
`float2phred(1 - (exp(sampleData.front().prob) - exp(sampleData.at(1).prob)))
  < parameters.genotypeVariantThreshold`,
the code's Phred-scale measure of how little the top two genotype
likelihoods differ. -/
def genotypeVariantCondition (threshold : ℝ) (sd : List SampleDataLikelihood) : Prop :=
  match sd with
  | a :: b :: _ => float2phred (1 - (Real.exp a.prob - Real.exp b.prob)) < threshold
  | _ => False

open scoped Classical in
/-- Keep the elements satisfying a (classical) predicate, in order. -/
noncomputable def selectWhere {α : Type} (P : α → Prop) : List α → List α
  | [] => []
  | a :: l => if P a then a :: selectWhere P l else selectWhere P l

open scoped Classical in
/-- Lines 256-268: when `genotypeVariantThreshold != 0`, a sample whose data
likelihoods have more than one entry and satisfy the Phred-gap condition is
pushed onto `variantSampleDataLikelihoods`, every other sample onto
`invariantSampleDataLikelihoods`; when the threshold is zero every sample is
pushed onto `variantSampleDataLikelihoods`.  The pair is
(variant, invariant), in sample iteration order. -/
noncomputable def partitionSampleDataLikelihoods (threshold : ℝ) :
    List (List SampleDataLikelihood) →
      List (List SampleDataLikelihood) × List (List SampleDataLikelihood)
  | [] => ([], [])
  | sd :: rest =>
    let p := partitionSampleDataLikelihoods threshold rest
    if threshold ≠ 0 then
      if 1 < sd.length ∧ genotypeVariantCondition threshold sd
      then (sd :: p.1, p.2)
      else (p.1, sd :: p.2)
    else (sd :: p.1, p.2)

/-- Lines 300-338: the genotype-combination search receives the variant
list of the partition as the samples free to vary (the invariant list is
frozen at its argmax).  Modelled from the spec: the search bodies are not
under `src/`; only which list is handed to them as free to vary is modelled
here. -/
noncomputable def discoverySearchFreeToVary (threshold : ℝ)
    (sds : List (List SampleDataLikelihood)) : List (List SampleDataLikelihood) :=
  (partitionSampleDataLikelihoods threshold sds).1

/-! ## The marginal-refinement phase (`freebayes.cpp` lines 451-542)

The phase seeds with `orderedGenotypeCombo` (lines 463-473) passing literal
`true` for the pooled and Hardy-Weinberg prior arguments, then loops at most
`genotypingMaxIterations` times (line 475), each iteration invoking
`allLocalGenotypeCombinations` (lines 479-492), again with literal `true`
for both prior arguments, and breaking as soon as
`sortSampleDataLikelihoodsByMarginals` reports an unchanged order
(lines 507-509).  Afterwards `dataLikelihoodMaxGenotypeCombo`
(lines 527-536) is invoked with the user's `parameters.pooled` and
`parameters.hwePriors`.  The search bodies are not under `src/`; modelled
from the spec, each invocation is recorded as the flag pair it receives,
and the convergence signal is an oracle giving the Boolean returned by
`sortSampleDataLikelihoodsByMarginals` at each executed iteration. -/

/-- The pooled / Hardy-Weinberg prior flags handed to one search routine
invocation. -/
structure SearchFlags where
  pooled : Bool
  hwePriors : Bool
deriving DecidableEq

/-- The flag pairs passed to `allLocalGenotypeCombinations`, one per executed
iteration of the loop at lines 475-524; `resortChanged j` is the Boolean
`sortSampleDataLikelihoodsByMarginals` returns at the loop's j-th executed
iteration, and the loop breaks when it is false (lines 507-509). -/
def refinementLoopCalls (resortChanged : ℕ → Bool) : ℕ → List SearchFlags
  | 0 => []
  | rem + 1 =>
    ⟨true, true⟩ ::
      (if resortChanged 0
       then refinementLoopCalls (fun j => resortChanged (j + 1)) rem
       else [])

/-- The number of iterations of the loop at lines 475-524 that execute. -/
def refinementIterationCount (genotypingMaxIterations : ℕ)
    (resortChanged : ℕ → Bool) : ℕ :=
  (refinementLoopCalls resortChanged genotypingMaxIterations).length

/-- The search invocations of the marginals block: `searchCalls` is the
`orderedGenotypeCombo` seed call (lines 463-473) followed by the
`allLocalGenotypeCombinations` calls of the loop, each with its prior-flag
arguments; `finalCall` is the `dataLikelihoodMaxGenotypeCombo` call of
lines 527-536. -/
structure MarginalsPhase where
  searchCalls : List SearchFlags
  finalCall : SearchFlags

/-- Lines 451-542: the marginals block.  The seed call and every loop call
pass literal `true` / `true` ("act as if pooled", "hwe priors"); the final
call passes `parameters.pooled` and `parameters.hwePriors`. -/
def marginalsPhase (userPooled userHwe : Bool) (genotypingMaxIterations : ℕ)
    (resortChanged : ℕ → Bool) : MarginalsPhase :=
  { searchCalls :=
      ⟨true, true⟩ :: refinementLoopCalls resortChanged genotypingMaxIterations,
    finalCall := ⟨userPooled, userHwe⟩ }

/-- The combo handed to the `vcf(...)` formatter at lines 562 and 582:
`bestGenotypeComboByMarginals` when `parameters.calculateMarginals` is set,
otherwise `bestGenotypeCombo`. -/
inductive ReportedCombo where
  | byMarginals
  | bestGenotypeCombo
deriving DecidableEq

/-- Lines 562 and 582: the ternary
`(parameters.calculateMarginals ? bestGenotypeComboByMarginals : bestGenotypeCombo)`. -/
def comboHandedToFormatter (calculateMarginals : Bool) : ReportedCombo :=
  if calculateMarginals then .byMarginals else .bestGenotypeCombo

/-! ## Combo sort and deduplication (`freebayes.cpp` lines 346-349)

`genotypeCombos.sort(gcrSorter); genotypeCombos.unique();` -/

/-- Modelled from the spec: the order imposed by `GenotypeComboResultSorter`
(body not under `src/`): descending by `posteriorProb`, ties broken
lexicographically on the sample-indexed genotype assignment ("define the
tie-break explicitly as lexicographic order on (sampleIdx,
genotype-canonical-key)"). -/
def comboSortRel (a b : GenotypeCombo) : Prop :=
  b.posteriorProb < a.posteriorProb
  ∨ (a.posteriorProb = b.posteriorProb ∧ a.assignment ≤ b.assignment)

instance : IsTotal GenotypeCombo comboSortRel := by
  constructor
  intro a b
  rcases lt_trichotomy a.posteriorProb b.posteriorProb with h | h | h
  · exact Or.inr (Or.inl h)
  · rcases le_total a.assignment b.assignment with h2 | h2
    · exact Or.inl (Or.inr ⟨h, h2⟩)
    · exact Or.inr (Or.inr ⟨h.symm, h2⟩)
  · exact Or.inl (Or.inl h)

instance : IsTrans GenotypeCombo comboSortRel := by
  constructor
  rintro a b c (hab | ⟨hab1, hab2⟩) (hbc | ⟨hbc1, hbc2⟩)
  · exact Or.inl (hbc.trans hab)
  · exact Or.inl (hbc1 ▸ hab)
  · exact Or.inl (hab1 ▸ hbc)
  · exact Or.inr ⟨hab1.trans hbc1, hab2.trans hbc2⟩

open scoped Classical in
/-- Line 348: `genotypeCombos.sort(gcrSorter)` — sort the combo list by the
`GenotypeComboResultSorter` order. -/
noncomputable def sortCombos (l : List GenotypeCombo) : List GenotypeCombo :=
  List.insertionSort comboSortRel l

/-- Line 349: `genotypeCombos.unique()`.  `std::list::unique` removes every
element equal to its surviving predecessor; modelled from the spec,
`GenotypeCombo` equality (body not under `src/`) is identity of the
sample-indexed genotype assignment ("remove combos identical up to
sample-indexed genotype assignment"). -/
def dedupAdjacentCombos : List GenotypeCombo → List GenotypeCombo
  | [] => []
  | [a] => [a]
  | a :: b :: rest =>
    if a.assignment = b.assignment
    then dedupAdjacentCombos (a :: rest)
    else a :: dedupAdjacentCombos (b :: rest)
termination_by l => l.length
decreasing_by
  · simp
  · simp

/-- Lines 348-349 composed: sort, then remove adjacent duplicates. -/
noncomputable def sortAndDedupCombos (l : List GenotypeCombo) : List GenotypeCombo :=
  dedupAdjacentCombos (sortCombos l)

/-! ## Per-site gating (`freebayes.cpp` lines 104-182) -/

/-- One group of equivalent allele observations at a site: whether the group
is the reference group, and how many observations it holds.  Groups arise
from `groupAlleles`, so a well-formed group holds at least one
observation. -/
structure ObsGroup where
  isRef : Bool
  count : ℕ
deriving DecidableEq

/-- Modelled from the spec: `countAlleles(samples)` (body not under `src/`)
is the total number of observations across all samples. -/
def countAlleles (samples : List (List ObsGroup)) : ℕ :=
  (samples.map (fun s => (s.map ObsGroup.count).sum)).sum

/-- Modelled from the spec: `sufficientAlternateObservations(samples,
minCount, minFraction)` (body not under `src/`) is "true iff at least one
non-reference group has ≥ minCount observations and represents ≥ minFraction
of total observations across samples" (the fraction condition stated
multiplicatively to avoid division). -/
def sufficientAlternateObservations (samples : List (List ObsGroup))
    (minAltCount : ℤ) (minAltFraction : ℝ) : Prop :=
  ∃ s ∈ samples, ∃ g ∈ s, g.isRef = false
    ∧ minAltCount ≤ (g.count : ℤ)
    ∧ minAltFraction * (countAlleles samples : ℝ) ≤ (g.count : ℝ)

/-- Why the driver skipped a site without emitting anything. -/
inductive SkipReason where
  | refBaseNotACGT
  | outsideTargets
  | lowCoverage
  | insufficientAltObs
  | tooFewGenotypeAlleles
deriving DecidableEq

open scoped Classical in
/-- Lines 104-179: the driver's per-site gating, in source order: skip when
the reference base is not A/T/C/G (line 105); skip when the position is not
in a target (line 126); skip when coverage is zero (line 137) or below
`minCoverage` (line 140); skip when `sufficientAlternateObservations` fails
(line 151); skip when at most one viable genotype allele remains
(line 176).  Each `continue` is modelled as the corresponding
`SkipReason`; a processed site is `none`. -/
noncomputable def gateSite (minCoverage minAltCount : ℤ) (minAltFraction : ℝ)
    (refBase : String) (inTarget : Bool) (samples : List (List ObsGroup))
    (numGenotypeAlleles : ℕ) : Option SkipReason :=
  if ¬(refBase = "A" ∨ refBase = "T" ∨ refBase = "C" ∨ refBase = "G") then
    some .refBaseNotACGT
  else if ¬inTarget then some .outsideTargets
  else if countAlleles samples = 0 then some .lowCoverage
  else if (countAlleles samples : ℤ) < minCoverage then some .lowCoverage
  else if ¬sufficientAlternateObservations samples minAltCount minAltFraction then
    some .insufficientAltObs
  else if numGenotypeAlleles ≤ 1 then some .tooFewGenotypeAlleles
  else none

/-! ## Lemmas about the decision loop -/

theorem decisionLoop_nil (n : ℝ) (b : Bool) (st : SiteDecisionState) :
    decisionLoop n [] b st = st := rfl

theorem decisionLoop_cons (n : ℝ) (gc : GenotypeCombo) (rest : List GenotypeCombo)
    (b : Bool) (st : SiteDecisionState) :
    decisionLoop n (gc :: rest) b st =
      decisionLoop n rest false (decisionStep n b st gc) := rfl

theorem decisionStep_pHom (n : ℝ) (b : Bool) (st : SiteDecisionState) (gc : GenotypeCombo) :
    (decisionStep n b st gc).pHom =
      if gc.isHom then st.pHom + safe_exp (gc.posteriorProb - n) else st.pHom := by
  unfold decisionStep
  split_ifs with h1 h2 <;> simp_all

theorem decisionStep_pVar (n : ℝ) (b : Bool) (st : SiteDecisionState) (gc : GenotypeCombo) :
    (decisionStep n b st gc).pVar =
      if gc.isHom then st.pVar - safe_exp (gc.posteriorProb - n) else st.pVar := by
  unfold decisionStep
  split_ifs with h1 h2 <;> simp_all

theorem decisionLoop_pHom (n : ℝ) (l : List GenotypeCombo) :
    ∀ (b : Bool) (st : SiteDecisionState),
      (decisionLoop n l b st).pHom =
        st.pHom + ((l.filter (fun gc => gc.isHom)).map
          (fun gc => safe_exp (gc.posteriorProb - n))).sum := by
  induction l with
  | nil => intro b st; simp [decisionLoop]
  | cons gc rest ih =>
    intro b st
    rw [decisionLoop_cons, ih false (decisionStep n b st gc), decisionStep_pHom]
    by_cases h : gc.isHom <;> simp [h] <;> ring

theorem decisionLoop_pVar (n : ℝ) (l : List GenotypeCombo) :
    ∀ (b : Bool) (st : SiteDecisionState),
      (decisionLoop n l b st).pVar =
        st.pVar - ((l.filter (fun gc => gc.isHom)).map
          (fun gc => safe_exp (gc.posteriorProb - n))).sum := by
  induction l with
  | nil => intro b st; simp [decisionLoop]
  | cons gc rest ih =>
    intro b st
    rw [decisionLoop_cons, ih false (decisionStep n b st gc), decisionStep_pVar]
    by_cases h : gc.isHom <;> simp [h] <;> ring

/-- Once a heterozygous combo has been recorded, the loop no longer touches
`bestCombo`, `hasHetCombo`, or `bestOverallComboIsHet`. -/
theorem decisionLoop_of_hasHet (n : ℝ) (l : List GenotypeCombo) :
    ∀ (b : Bool) (st : SiteDecisionState), st.hasHetCombo = true →
      (decisionLoop n l b st).bestCombo = st.bestCombo
      ∧ (decisionLoop n l b st).hasHetCombo = true
      ∧ (decisionLoop n l b st).bestOverallComboIsHet = st.bestOverallComboIsHet := by
  induction l with
  | nil => intro b st h; simp [decisionLoop, h]
  | cons gc rest ih =>
    intro b st h
    rw [decisionLoop_cons]
    have hstep : (decisionStep n b st gc).bestCombo = st.bestCombo
        ∧ (decisionStep n b st gc).hasHetCombo = true
        ∧ (decisionStep n b st gc).bestOverallComboIsHet = st.bestOverallComboIsHet := by
      unfold decisionStep
      split_ifs with h1 h2 <;> simp_all
    obtain ⟨e1, e2, e3⟩ := ih false (decisionStep n b st gc) hstep.2.1
    rw [e1, e2, e3, hstep.1, hstep.2.2]
    exact ⟨rfl, rfl, rfl⟩

/-- Starting from a state with no heterozygous combo recorded, the loop's
`bestCombo` and `hasHetCombo` are governed by the first heterozygous combo
in the list, if any. -/
theorem decisionLoop_bestCombo_of_not_hasHet (n : ℝ) (l : List GenotypeCombo) :
    ∀ (b : Bool) (st : SiteDecisionState), st.hasHetCombo = false →
      ((decisionLoop n l b st).bestCombo, (decisionLoop n l b st).hasHetCombo) =
        (match l.find? (fun gc => !gc.isHom) with
          | some c => (some c, true)
          | none => (st.bestCombo, false)) := by
  induction l with
  | nil => intro b st h; simp [decisionLoop, h]
  | cons gc rest ih =>
    intro b st h
    rw [decisionLoop_cons]
    by_cases hg : gc.isHom
    · have hstep : decisionStep n b st gc =
          { st with
            pVar := st.pVar - safe_exp (gc.posteriorProb - n),
            pHom := st.pHom + safe_exp (gc.posteriorProb - n) } := by
        unfold decisionStep; simp [hg]
      rw [hstep, ih false _ (by simpa using h)]
      simp [List.find?, hg]
    · have hstep : decisionStep n b st gc =
          { st with
            bestCombo := some gc,
            hasHetCombo := true,
            bestOverallComboIsHet := if b then true else st.bestOverallComboIsHet } := by
        unfold decisionStep; simp [hg, h]
      obtain ⟨e1, e2, _⟩ := decisionLoop_of_hasHet n rest false (decisionStep n b st gc)
        (by rw [hstep])
      rw [e1, e2, hstep]
      simp [List.find?, hg]

/-- Away from the head of the list, the loop never changes
`bestOverallComboIsHet`. -/
theorem decisionLoop_bestOverall_of_not_first (n : ℝ) (l : List GenotypeCombo) :
    ∀ st : SiteDecisionState,
      (decisionLoop n l false st).bestOverallComboIsHet = st.bestOverallComboIsHet := by
  induction l with
  | nil => intro st; simp [decisionLoop]
  | cons gc rest ih =>
    intro st
    rw [decisionLoop_cons, ih]
    unfold decisionStep
    split_ifs with h1 h2 <;> simp_all

/-! ## Projections of `siteDecision` through the final fallback `if` -/

theorem siteDecision_pHom_eq (combos : List GenotypeCombo) :
    (siteDecision combos).pHom =
      (decisionLoop (posteriorNormalizer combos) combos true initDecisionState).pHom := by
  simp only [siteDecision]
  split <;> rfl

theorem siteDecision_pVar_eq (combos : List GenotypeCombo) :
    (siteDecision combos).pVar =
      (decisionLoop (posteriorNormalizer combos) combos true initDecisionState).pVar := by
  simp only [siteDecision]
  split <;> rfl

theorem siteDecision_bestOverall_eq (combos : List GenotypeCombo) :
    (siteDecision combos).bestOverallComboIsHet =
      (decisionLoop (posteriorNormalizer combos) combos true initDecisionState).bestOverallComboIsHet := by
  simp only [siteDecision]
  split <;> rfl

/-! ## Claim theorems: site-level posteriors and best combo -/

/-- C1: for every processed site, `pHom` is the sum over homozygous combos
of `safe_exp (posteriorProb - logZ)` with `logZ` the `logsumexp` of all
combo `posteriorProb` values, `pVar` is one minus that sum, and
`pHom + pVar = 1`. -/
theorem site_pHom_pVar_sum_one (combos : List GenotypeCombo) :
    (siteDecision combos).pHom =
      ((combos.filter (fun gc => gc.isHom)).map
        (fun gc => safe_exp (gc.posteriorProb
          - logsumexp_probs (combos.map GenotypeCombo.posteriorProb)))).sum
    ∧ (siteDecision combos).pVar =
      1 - ((combos.filter (fun gc => gc.isHom)).map
        (fun gc => safe_exp (gc.posteriorProb
          - logsumexp_probs (combos.map GenotypeCombo.posteriorProb)))).sum
    ∧ (siteDecision combos).pHom + (siteDecision combos).pVar = 1 := by
  have hHom := siteDecision_pHom_eq combos
  have hVar := siteDecision_pVar_eq combos
  rw [decisionLoop_pHom] at hHom
  rw [decisionLoop_pVar] at hVar
  simp only [initDecisionState, posteriorNormalizer] at hHom hVar
  rw [hHom, hVar]
  refine ⟨by ring, by ring, by ring⟩

/-- C3: for every processed site with a non-empty (sorted, deduplicated)
combo list, `bestCombo` is the first heterozygous combo in list order, and
if no heterozygous combo exists it is the overall top (front) combo. -/
theorem siteDecision_bestCombo (combos : List GenotypeCombo) (h : combos ≠ []) :
    (siteDecision combos).bestCombo =
      some (match combos.find? (fun gc => !gc.isHom) with
        | some c => c
        | none => combos.head h) := by
  simp only [siteDecision]
  have hloop := decisionLoop_bestCombo_of_not_hasHet
    (posteriorNormalizer combos) combos true initDecisionState rfl
  rcases hfind : combos.find? (fun gc => !gc.isHom) with _ | c
  · rw [hfind] at hloop
    have h1 : (decisionLoop (posteriorNormalizer combos) combos true
        initDecisionState).bestCombo = none := by
      have := congrArg Prod.fst hloop; simpa [initDecisionState] using this
    have h2 : (decisionLoop (posteriorNormalizer combos) combos true
        initDecisionState).hasHetCombo = false := by
      have := congrArg Prod.snd hloop; simpa using this
    rw [h2, hfind]
    simp [List.head?_eq_head h]
  · rw [hfind] at hloop
    have h1 : (decisionLoop (posteriorNormalizer combos) combos true
        initDecisionState).bestCombo = some c := by
      have := congrArg Prod.fst hloop; simpa using this
    have h2 : (decisionLoop (posteriorNormalizer combos) combos true
        initDecisionState).hasHetCombo = true := by
      have := congrArg Prod.snd hloop; simpa using this
    rw [h2, hfind]
    simpa using h1

/-- `bestOverallComboIsHet` is left untouched by a homozygous head. -/
theorem decisionStep_bestOverall_hom (n : ℝ) (b : Bool) (st : SiteDecisionState)
    (gc : GenotypeCombo) (h : gc.isHom = true) :
    (decisionStep n b st gc).bestOverallComboIsHet = st.bestOverallComboIsHet := by
  unfold decisionStep
  simp [h]

/-- A heterozygous combo seen first (`gc == genotypeCombos.begin()`) while no
heterozygous combo is recorded sets `bestOverallComboIsHet`. -/
theorem decisionStep_bestOverall_het_first (n : ℝ) (st : SiteDecisionState)
    (gc : GenotypeCombo) (h1 : gc.isHom = false) (h2 : st.hasHetCombo = false) :
    (decisionStep n true st gc).bestOverallComboIsHet = true := by
  unfold decisionStep
  simp [h1, h2]

/-- C9: for every processed site with a non-empty combo list,
`bestOverallComboIsHet` is true exactly when the front combo of the sorted,
deduplicated list is heterozygous. -/
theorem siteDecision_bestOverallComboIsHet (combos : List GenotypeCombo)
    (h : combos ≠ []) :
    ((siteDecision combos).bestOverallComboIsHet = true
      ↔ (combos.head h).isHom = false) := by
  obtain ⟨a, rest, rfl⟩ := List.exists_cons_of_ne_nil h
  rw [siteDecision_bestOverall_eq, decisionLoop_cons,
    decisionLoop_bestOverall_of_not_first]
  by_cases ha : a.isHom
  · rw [decisionStep_bestOverall_hom _ _ _ _ ha]
    simp [initDecisionState, ha]
  · rw [decisionStep_bestOverall_het_first _ _ _ (by simpa using ha) rfl]
    simp [ha]

/-- C2: a variant record is emitted exactly when `1 - pHom ≥ PVL`; below the
threshold the site at most reaches the failed-site report; and raising the
threshold can only remove emitted sites. -/
theorem siteOutput_emitted_iff (combos : List GenotypeCombo) (PVL PVL' : ℝ)
    (hasFailedFile : Bool) (hP : PVL ≤ PVL') :
    (siteOutput (siteDecision combos).pHom PVL hasFailedFile = .emitted
      ↔ 1 - (siteDecision combos).pHom ≥ PVL)
    ∧ (1 - (siteDecision combos).pHom < PVL →
        siteOutput (siteDecision combos).pHom PVL hasFailedFile = .failedRecord
        ∨ siteOutput (siteDecision combos).pHom PVL hasFailedFile = .noOutput)
    ∧ (siteOutput (siteDecision combos).pHom PVL' hasFailedFile = .emitted →
        siteOutput (siteDecision combos).pHom PVL hasFailedFile = .emitted) := by
  generalize (siteDecision combos).pHom = x
  unfold siteOutput
  refine ⟨?_, ?_, ?_⟩
  · split_ifs with h1 h2 <;> simp_all
  · intro hlt
    split_ifs with h1 h2 <;> simp_all
    linarith
  · intro hem
    have h1 : 1 - x ≥ PVL' := by
      by_contra hc
      rw [if_neg hc] at hem
      split_ifs at hem <;> simp_all
    rw [if_pos (le_trans hP h1)]

/-! ## Witnesses -/

theorem siteDecision_bestCombo_witness :
    ([(⟨["a"], true, 0⟩ : GenotypeCombo)] ≠ [])
    ∧ (siteDecision [⟨["a"], true, 0⟩]).bestCombo = some ⟨["a"], true, 0⟩ := by
  refine ⟨by simp, ?_⟩
  have := siteDecision_bestCombo [⟨["a"], true, 0⟩] (by simp)
  simpa [List.find?] using this

theorem siteDecision_bestOverallComboIsHet_witness :
    ([(⟨["a"], false, 0⟩ : GenotypeCombo)] ≠ [])
    ∧ ((siteDecision [⟨["a"], false, 0⟩]).bestOverallComboIsHet = true
        ↔ (⟨["a"], false, 0⟩ : GenotypeCombo).isHom = false) := by
  refine ⟨by simp, ?_⟩
  have := siteDecision_bestOverallComboIsHet [⟨["a"], false, 0⟩] (by simp)
  simpa using this

theorem siteOutput_emitted_iff_witness :
    ((0:ℝ) ≤ (0:ℝ))
    ∧ ((siteOutput (siteDecision []).pHom 0 false = .emitted
          ↔ 1 - (siteDecision []).pHom ≥ 0)
      ∧ (1 - (siteDecision []).pHom < 0 →
          siteOutput (siteDecision []).pHom 0 false = .failedRecord
          ∨ siteOutput (siteDecision []).pHom 0 false = .noOutput)
      ∧ (siteOutput (siteDecision []).pHom 0 false = .emitted →
          siteOutput (siteDecision []).pHom 0 false = .emitted)) :=
  ⟨le_refl 0, siteOutput_emitted_iff [] 0 0 false (le_refl 0)⟩

/-! ## Claim theorems: variant/invariant partition -/

/-- C4: when `genotypeVariantThreshold` is nonzero, the variant list holds
exactly the samples whose top two genotype likelihoods differ by less than
the threshold on the code's Phred scale (`genotypeVariantCondition`, which
also requires at least two entries), the invariant list holds exactly the
others, and the variant list is what the search receives as free to vary. -/
theorem partitionSampleDataLikelihoods_spec (threshold : ℝ) (h : threshold ≠ 0)
    (sds : List (List SampleDataLikelihood)) :
    (partitionSampleDataLikelihoods threshold sds).1 =
      selectWhere (fun sd => 1 < sd.length ∧ genotypeVariantCondition threshold sd) sds
    ∧ (partitionSampleDataLikelihoods threshold sds).2 =
      selectWhere (fun sd => ¬(1 < sd.length ∧ genotypeVariantCondition threshold sd)) sds
    ∧ discoverySearchFreeToVary threshold sds =
      selectWhere (fun sd => 1 < sd.length ∧ genotypeVariantCondition threshold sd) sds := by
  have main : (partitionSampleDataLikelihoods threshold sds).1 =
      selectWhere (fun sd => 1 < sd.length ∧ genotypeVariantCondition threshold sd) sds
      ∧ (partitionSampleDataLikelihoods threshold sds).2 =
      selectWhere (fun sd => ¬(1 < sd.length ∧ genotypeVariantCondition threshold sd)) sds := by
    induction sds with
    | nil => exact ⟨rfl, rfl⟩
    | cons sd rest ih =>
      by_cases hc : 1 < sd.length ∧ genotypeVariantCondition threshold sd
      · constructor
        · simp [partitionSampleDataLikelihoods, selectWhere, h, hc, ih.1]
        · simp [partitionSampleDataLikelihoods, selectWhere, h, hc, ih.2]
      · constructor
        · simp [partitionSampleDataLikelihoods, selectWhere, h, hc, ih.1]
        · simp [partitionSampleDataLikelihoods, selectWhere, h, hc, ih.2]
  exact ⟨main.1, main.2, main.1⟩

theorem partitionSampleDataLikelihoods_spec_witness :
    ((1:ℝ) ≠ 0)
    ∧ ((partitionSampleDataLikelihoods 1 [[]]).1 =
        selectWhere (fun sd => 1 < sd.length ∧ genotypeVariantCondition 1 sd) [[]]
      ∧ (partitionSampleDataLikelihoods 1 [[]]).2 =
        selectWhere (fun sd => ¬(1 < sd.length ∧ genotypeVariantCondition 1 sd)) [[]]
      ∧ discoverySearchFreeToVary 1 [[]] =
        selectWhere (fun sd => 1 < sd.length ∧ genotypeVariantCondition 1 sd) [[]]) :=
  ⟨one_ne_zero, partitionSampleDataLikelihoods_spec 1 one_ne_zero [[]]⟩

/-! ## Claim theorems: marginal-refinement phase -/

/-- Every flag pair the refinement loop passes to
`allLocalGenotypeCombinations` is the literal `true`/`true` pair. -/
theorem refinementLoopCalls_all_true :
    ∀ (m : ℕ) (resortChanged : ℕ → Bool) (c : SearchFlags),
      c ∈ refinementLoopCalls resortChanged m → c = ⟨true, true⟩ := by
  intro m
  induction m with
  | zero => intro f c hc; simp [refinementLoopCalls] at hc
  | succ rem ih =>
    intro f c hc
    rw [refinementLoopCalls] at hc
    rcases List.mem_cons.mp hc with h1 | h1
    · exact h1
    · by_cases hf : f 0
      · rw [if_pos hf] at h1
        exact ih (fun j => f (j + 1)) c h1
      · rw [if_neg hf] at h1
        simp at h1

/-- Every search call of the marginals phase, the seed included, uses the
literal `true`/`true` flag pair. -/
theorem marginalsPhase_searchCalls_all_true (userPooled userHwe : Bool) (m : ℕ)
    (resortChanged : ℕ → Bool) (c : SearchFlags)
    (hc : c ∈ (marginalsPhase userPooled userHwe m resortChanged).searchCalls) :
    c = ⟨true, true⟩ := by
  rcases List.mem_cons.mp hc with h1 | h1
  · exact h1
  · exact refinementLoopCalls_all_true m resortChanged c h1

/-- C5: during the marginalizer's refinement passes — the ordered seed combo
and every `allLocalGenotypeCombinations` expansion — the search is invoked
with `pooled = true` and `hwePriors = true`, whatever the user configured. -/
theorem marginals_search_flags_forced (userPooled userHwe : Bool) (m : ℕ)
    (resortChanged : ℕ → Bool) (c : SearchFlags)
    (hc : c ∈ (marginalsPhase userPooled userHwe m resortChanged).searchCalls) :
    c.pooled = true ∧ c.hwePriors = true := by
  rw [marginalsPhase_searchCalls_all_true userPooled userHwe m resortChanged c hc]
  exact ⟨rfl, rfl⟩

theorem marginals_search_flags_forced_witness :
    ((⟨true, true⟩ : SearchFlags) ∈
        (marginalsPhase false false 1 (fun _ => false)).searchCalls)
    ∧ ((⟨true, true⟩ : SearchFlags).pooled = true
        ∧ (⟨true, true⟩ : SearchFlags).hwePriors = true) :=
  ⟨by decide,
    marginals_search_flags_forced false false 1 (fun _ => false) ⟨true, true⟩ (by decide)⟩

/-- The loop executes `min maxIter (trueStreak + 1)` iterations, where
`trueStreak` counts the leading iterations whose re-sort changed the order. -/
theorem refinementLoopCalls_length :
    ∀ (m : ℕ) (f : ℕ → Bool),
      (refinementLoopCalls f m).length =
        min m (((List.range m).takeWhile f).length + 1) := by
  intro m
  induction m with
  | zero => intro f; simp [refinementLoopCalls]
  | succ rem ih =>
    intro f
    rw [refinementLoopCalls]
    by_cases hf : f 0
    · rw [if_pos hf]
      have hrange : List.range (rem + 1) = 0 :: List.map Nat.succ (List.range rem) :=
        List.range_succ_eq_map rem
      rw [List.length_cons, ih (fun j => f (j + 1)), hrange]
      rw [List.takeWhile_cons_of_pos (by simpa using hf)]
      rw [List.takeWhile_map]
      have hcomp : (f ∘ Nat.succ) = (fun j => f (j + 1)) := rfl
      rw [hcomp]
      simp only [List.length_cons, List.length_map]
      omega
    · rw [if_neg hf]
      have hrange : List.range (rem + 1) = 0 :: List.map Nat.succ (List.range rem) :=
        List.range_succ_eq_map rem
      rw [hrange, List.takeWhile_cons_of_neg (by simpa using hf)]
      simp

/-- C6: for every site the marginal-refinement loop executes at most
`genotypingMaxIterations` iterations, and it stops exactly one iteration
after the first re-sort that produces no change in order (if any happens
within the cap). -/
theorem refinement_iteration_bound (genotypingMaxIterations : ℕ)
    (resortChanged : ℕ → Bool) :
    refinementIterationCount genotypingMaxIterations resortChanged
      ≤ genotypingMaxIterations
    ∧ refinementIterationCount genotypingMaxIterations resortChanged =
        min genotypingMaxIterations
          (((List.range genotypingMaxIterations).takeWhile resortChanged).length + 1) := by
  have h := refinementLoopCalls_length genotypingMaxIterations resortChanged
  constructor
  · rw [refinementIterationCount, h]; omega
  · rw [refinementIterationCount, h]

/-- C10: with `calculateMarginals` set, the combo handed to the formatter is
`bestGenotypeComboByMarginals`, and the `dataLikelihoodMaxGenotypeCombo`
call that builds it receives the user's configured `pooled` and `hwePriors`
— so unless the user configured both flags true, that call's flags appear
nowhere among the refinement passes' forced `true`/`true` flags. -/
theorem formatter_combo_uses_user_priors (userPooled userHwe : Bool) (m : ℕ)
    (resortChanged : ℕ → Bool) :
    comboHandedToFormatter true = ReportedCombo.byMarginals
    ∧ (marginalsPhase userPooled userHwe m resortChanged).finalCall =
        ⟨userPooled, userHwe⟩
    ∧ ((userPooled = true ∧ userHwe = true)
        ∨ (marginalsPhase userPooled userHwe m resortChanged).finalCall ∉
            (marginalsPhase userPooled userHwe m resortChanged).searchCalls) := by
  refine ⟨rfl, rfl, ?_⟩
  by_cases hp : userPooled = true ∧ userHwe = true
  · exact Or.inl hp
  · refine Or.inr (fun hmem => hp ?_)
    have h1 := marginalsPhase_searchCalls_all_true userPooled userHwe m resortChanged
      (marginalsPhase userPooled userHwe m resortChanged).finalCall hmem
    have h2 : (⟨userPooled, userHwe⟩ : SearchFlags) = ⟨true, true⟩ := h1
    exact ⟨congrArg SearchFlags.pooled h2, congrArg SearchFlags.hwePriors h2⟩

theorem formatter_combo_uses_user_priors_witness :
    comboHandedToFormatter true = ReportedCombo.byMarginals
    ∧ (marginalsPhase false false 0 (fun _ => true)).finalCall = ⟨false, false⟩
    ∧ ((false = true ∧ false = true)
        ∨ (marginalsPhase false false 0 (fun _ => true)).finalCall ∉
            (marginalsPhase false false 0 (fun _ => true)).searchCalls) :=
  formatter_combo_uses_user_priors false false 0 (fun _ => true)

/-! ## Claim theorems: sort and deduplication -/

theorem dedupAdjacentCombos_sublist :
    ∀ l : List GenotypeCombo, List.Sublist (dedupAdjacentCombos l) l := by
  intro l
  induction l using dedupAdjacentCombos.induct with
  | case1 => rw [dedupAdjacentCombos]
  | case2 a => rw [dedupAdjacentCombos]
  | case3 a b rest heq ih =>
    rw [dedupAdjacentCombos, if_pos heq]
    exact ih.trans (List.Sublist.cons₂ a (List.sublist_cons_self b rest))
  | case4 a b rest heq ih =>
    rw [dedupAdjacentCombos, if_neg heq]
    exact List.Sublist.cons₂ a ih

theorem dedupAdjacentCombos_head :
    ∀ (l : List GenotypeCombo) (h : l ≠ []),
      ∃ t, dedupAdjacentCombos l = l.head h :: t := by
  intro l
  induction l using dedupAdjacentCombos.induct with
  | case1 => intro h; exact absurd rfl h
  | case2 a => intro h; exact ⟨[], by simp [dedupAdjacentCombos]⟩
  | case3 a b rest heq ih =>
    intro h
    rw [dedupAdjacentCombos, if_pos heq]
    obtain ⟨t, ht⟩ := ih (by simp)
    exact ⟨t, ht⟩
  | case4 a b rest heq ih =>
    intro h
    rw [dedupAdjacentCombos, if_neg heq]
    exact ⟨dedupAdjacentCombos (b :: rest), rfl⟩

theorem dedupAdjacentCombos_chain' :
    ∀ l : List GenotypeCombo,
      (dedupAdjacentCombos l).Chain' (fun x y => x.assignment ≠ y.assignment) := by
  intro l
  induction l using dedupAdjacentCombos.induct with
  | case1 => simp [dedupAdjacentCombos]
  | case2 a => simp [dedupAdjacentCombos]
  | case3 a b rest heq ih =>
    rw [dedupAdjacentCombos, if_pos heq]
    exact ih
  | case4 a b rest heq ih =>
    rw [dedupAdjacentCombos, if_neg heq]
    obtain ⟨t, ht⟩ := dedupAdjacentCombos_head (b :: rest) (by simp)
    rw [ht]
    rw [ht] at ih
    exact List.chain'_cons.mpr ⟨heq, ih⟩

/-- Squeezing in the sort order: if `a ≤ c ≤ b` in the
`GenotypeComboResultSorter` order and `a` and `b` agree on both posterior
score and assignment, then `c` carries the same assignment. -/
theorem comboSortRel_squeeze (a c b : GenotypeCombo)
    (hac : comboSortRel a c) (hcb : comboSortRel c b)
    (hpp : a.posteriorProb = b.posteriorProb)
    (haa : a.assignment = b.assignment) : c.assignment = a.assignment := by
  rcases hac with h1 | ⟨h1, h2⟩
  · rcases hcb with h3 | ⟨h3, h4⟩
    · exfalso; linarith
    · exfalso; linarith
  · rcases hcb with h3 | ⟨h3, h4⟩
    · exfalso; linarith
    · exact le_antisymm (haa ▸ h4) h2

/-- A list sorted by the combo order, whose consecutive assignments differ,
and in which equal assignments force equal posterior scores, has pairwise
distinct assignments. -/
theorem pairwise_ne_of_sorted_chain' :
    ∀ l : List GenotypeCombo, l.Pairwise comboSortRel →
      l.Chain' (fun x y => x.assignment ≠ y.assignment) →
      (∀ a ∈ l, ∀ b ∈ l, a.assignment = b.assignment →
        a.posteriorProb = b.posteriorProb) →
      l.Pairwise (fun x y => x.assignment ≠ y.assignment) := by
  intro l
  induction l with
  | nil => intro _ _ _; exact List.Pairwise.nil
  | cons a t ih =>
    intro hp hc hsame
    have hp' := List.pairwise_cons.mp hp
    refine List.pairwise_cons.mpr ⟨?_, ih hp'.2 hc.tail ?_⟩
    · intro b hb heq
      have hppab : a.posteriorProb = b.posteriorProb :=
        hsame a (List.mem_cons_self a t) b (List.mem_cons_of_mem a hb) heq
      cases t with
      | nil => simp at hb
      | cons c t' =>
        have hneac : a.assignment ≠ c.assignment := (List.chain'_cons.mp hc).1
        rcases List.mem_cons.mp hb with rfl | hb'
        · exact hneac heq
        · have hac : comboSortRel a c := hp'.1 c (List.mem_cons_self c t')
          have hcb : comboSortRel c b :=
            (List.pairwise_cons.mp hp'.2).1 b hb'
          exact hneac (comboSortRel_squeeze a c b hac hcb hppab heq).symm
    · intro x hx y hy
      exact hsame x (List.mem_cons_of_mem a hx) y (List.mem_cons_of_mem a hy)

open scoped Classical in
/-- C7: after the sort-and-deduplicate step of lines 346-349, the site's
combo list is sorted descending by `posteriorProb`, and no two combos in it
have identical sample-indexed genotype assignments.  The hypothesis is the
spec's invariant that a combo's posterior score is deterministic in its
assignment (two combos produced with the same assignment carry the same
score). -/
theorem sortAndDedupCombos_sorted_and_distinct (l : List GenotypeCombo)
    (hsame : ∀ a ∈ l, ∀ b ∈ l, a.assignment = b.assignment →
      a.posteriorProb = b.posteriorProb) :
    (sortAndDedupCombos l).Pairwise (fun x y => y.posteriorProb ≤ x.posteriorProb)
    ∧ (sortAndDedupCombos l).Pairwise (fun x y => x.assignment ≠ y.assignment) := by
  have hsorted : (sortCombos l).Pairwise comboSortRel :=
    List.sorted_insertionSort comboSortRel l
  have hsub : List.Sublist (sortAndDedupCombos l) (sortCombos l) :=
    dedupAdjacentCombos_sublist (sortCombos l)
  have hsorted2 : (sortAndDedupCombos l).Pairwise comboSortRel :=
    hsorted.sublist hsub
  have hmem : ∀ x ∈ sortAndDedupCombos l, x ∈ l := by
    intro x hx
    exact (List.perm_insertionSort comboSortRel l).subset (hsub.subset hx)
  constructor
  · refine hsorted2.imp ?_
    rintro x y (h | ⟨h, _⟩)
    · exact le_of_lt h
    · exact le_of_eq h.symm
  · refine pairwise_ne_of_sorted_chain' _ hsorted2 ?_ ?_
    · exact dedupAdjacentCombos_chain' (sortCombos l)
    · intro a ha b hb
      exact hsame a (hmem a ha) b (hmem b hb)

theorem sortAndDedupCombos_sorted_and_distinct_witness :
    (∀ a ∈ [(⟨["a"], true, 0⟩ : GenotypeCombo)],
      ∀ b ∈ [(⟨["a"], true, 0⟩ : GenotypeCombo)],
        a.assignment = b.assignment → a.posteriorProb = b.posteriorProb)
    ∧ ((sortAndDedupCombos [⟨["a"], true, 0⟩]).Pairwise
        (fun x y => y.posteriorProb ≤ x.posteriorProb)
      ∧ (sortAndDedupCombos [⟨["a"], true, 0⟩]).Pairwise
        (fun x y => x.assignment ≠ y.assignment)) :=
  ⟨by simp, sortAndDedupCombos_sorted_and_distinct [⟨["a"], true, 0⟩] (by simp)⟩

/-! ## Claim theorems: per-site gating -/

/-- With well-formed observation groups (each holding at least one
observation), a zero-coverage site can never pass the
alternate-observation check: there are no groups at all. -/
theorem not_sufficientAlt_of_zero_coverage (samples : List (List ObsGroup))
    (minAltCount : ℤ) (minAltFraction : ℝ)
    (hwf : ∀ s ∈ samples, ∀ g ∈ s, 1 ≤ g.count)
    (h0 : countAlleles samples = 0) :
    ¬ sufficientAlternateObservations samples minAltCount minAltFraction := by
  rintro ⟨s, hs, g, hg, _, _, _⟩
  have h1 : 1 ≤ g.count := hwf s hs g hg
  have h2 : g.count ≤ (s.map ObsGroup.count).sum :=
    List.single_le_sum (fun x _ => Nat.zero_le x) _
      (List.mem_map_of_mem ObsGroup.count hg)
  have h3 : (s.map ObsGroup.count).sum ≤ countAlleles samples :=
    List.single_le_sum (fun x _ => Nat.zero_le x) _
      (List.mem_map_of_mem (fun t => (t.map ObsGroup.count).sum) hs)
  omega

set_option maxHeartbeats 1000000 in
open scoped Classical in
/-- C8: with well-formed observation groups, the driver skips a site (emits
nothing; the model returns a `SkipReason` rather than raising anything)
exactly when the reference base is not one of A, C, G, T, or the position is
outside the targets, or coverage is below `minCoverage`, or the
alternate-observation check fails, or fewer than two viable genotype
alleles remain — and the checks are applied in that order (the coverage
check also catches zero coverage, which in any case fails the
alternate-observation check). -/
theorem gateSite_skip_iff (minCoverage minAltCount : ℤ) (minAltFraction : ℝ)
    (refBase : String) (inTarget : Bool) (samples : List (List ObsGroup))
    (numGenotypeAlleles : ℕ)
    (hwf : ∀ s ∈ samples, ∀ g ∈ s, 1 ≤ g.count) :
    (gateSite minCoverage minAltCount minAltFraction refBase inTarget samples
        numGenotypeAlleles = none
      ↔ ¬(¬(refBase = "A" ∨ refBase = "C" ∨ refBase = "G" ∨ refBase = "T")
          ∨ ¬inTarget
          ∨ (countAlleles samples : ℤ) < minCoverage
          ∨ ¬sufficientAlternateObservations samples minAltCount minAltFraction
          ∨ numGenotypeAlleles ≤ 1))
    ∧ gateSite minCoverage minAltCount minAltFraction refBase inTarget samples
        numGenotypeAlleles =
      (if ¬(refBase = "A" ∨ refBase = "C" ∨ refBase = "G" ∨ refBase = "T") then
        some SkipReason.refBaseNotACGT
      else if ¬inTarget then some SkipReason.outsideTargets
      else if countAlleles samples = 0 ∨ (countAlleles samples : ℤ) < minCoverage then
        some SkipReason.lowCoverage
      else if ¬sufficientAlternateObservations samples minAltCount minAltFraction then
        some SkipReason.insufficientAltObs
      else if numGenotypeAlleles ≤ 1 then some SkipReason.tooFewGenotypeAlleles
      else none) := by
  have hzc : countAlleles samples = 0 →
      ¬sufficientAlternateObservations samples minAltCount minAltFraction :=
    fun h0 => not_sufficientAlt_of_zero_coverage samples minAltCount minAltFraction hwf h0
  constructor
  · unfold gateSite
    split_ifs <;>
      first
        | exact iff_of_true rfl (by tauto)
        | (refine iff_of_false (by simp) ?_; tauto)
  · unfold gateSite
    split_ifs <;> first | rfl | tauto

open scoped Classical in
theorem gateSite_skip_iff_witness :
    (∀ s ∈ [[({ isRef := false, count := 2 } : ObsGroup)]], ∀ g ∈ s, 1 ≤ g.count)
    ∧ ((gateSite 1 1 0 "A" true [[({ isRef := false, count := 2 } : ObsGroup)]] 2 = none
      ↔ ¬(¬("A" = "A" ∨ "A" = "C" ∨ "A" = "G" ∨ "A" = "T")
          ∨ ¬(true : Bool)
          ∨ (countAlleles [[({ isRef := false, count := 2 } : ObsGroup)]] : ℤ) < 1
          ∨ ¬sufficientAlternateObservations
              [[({ isRef := false, count := 2 } : ObsGroup)]] 1 0
          ∨ (2 : ℕ) ≤ 1))
    ∧ gateSite 1 1 0 "A" true [[({ isRef := false, count := 2 } : ObsGroup)]] 2 =
      (if ¬("A" = "A" ∨ "A" = "C" ∨ "A" = "G" ∨ "A" = "T") then
        some SkipReason.refBaseNotACGT
      else if ¬(true : Bool) then some SkipReason.outsideTargets
      else if countAlleles [[({ isRef := false, count := 2 } : ObsGroup)]] = 0
          ∨ (countAlleles [[({ isRef := false, count := 2 } : ObsGroup)]] : ℤ) < 1 then
        some SkipReason.lowCoverage
      else if ¬sufficientAlternateObservations
          [[({ isRef := false, count := 2 } : ObsGroup)]] 1 0 then
        some SkipReason.insufficientAltObs
      else if (2 : ℕ) ≤ 1 then some SkipReason.tooFewGenotypeAlleles
      else none)) :=
  ⟨by decide,
    gateSite_skip_iff 1 1 0 "A" true [[({ isRef := false, count := 2 } : ObsGroup)]] 2
      (by decide)⟩

end Freebayes
